import Mathlib

/-!
Shallow embedding of the email-finder repository's core services:

* `EmailPatternService`    — apps/backend/src/services/emailPatterns.ts
* `EmailValidationService` — the SMTP/MX email validation service
  (the source file importing `net`/`dns/promises`)

Pure functions of the source are translated to Lean functions.  The
network-bound parts (DNS resolution, SMTP sockets) are modelled by explicit
oracles passed in an environment record, and a JavaScript `throw` / promise
rejection is modelled with `Except`.  JavaScript strings are modelled by
`String` (a wrapped `List Char`); the JavaScript string primitives used by
the source (`replace(/pat/g, rep)`, `includes`, `startsWith`, `split`,
`charAt`, `toLowerCase`, `trim`) are defined below on `List Char` with the
ECMAScript semantics, so that every definition evaluates by kernel
reduction.
-/

/-- Fuel-indexed worker for `replaceAll`.  The fuel is an upper bound on the
length of the subject string; it only exists to make the recursion
structural (each step consumes at least one character of the subject). -/
def replaceAllGo (pat rep : List Char) : Nat → List Char → List Char
  | _, [] => []
  | 0, s => s
  | fuel + 1, c :: rest =>
    if pat.isPrefixOf (c :: rest) && !pat.isEmpty then
      rep ++ replaceAllGo pat rep fuel (rest.drop (pat.length - 1))
    else
      c :: replaceAllGo pat rep fuel rest

/-- JavaScript `s.replace(/pat/g, rep)` for a literal pattern `pat`:
replaces every non-overlapping occurrence of `pat` in `s`, scanning left to
right, without rescanning replacement text.  (All call sites in the source
use non-empty literal patterns; for an empty pattern this returns `s`.) -/
def replaceAll (pat rep s : List Char) : List Char :=
  replaceAllGo pat rep s.length s

/-- JavaScript `s.includes(pat)`: substring containment. -/
def isSubstringOf (pat : List Char) : List Char → Bool
  | [] => pat.isEmpty
  | c :: rest => pat.isPrefixOf (c :: rest) || isSubstringOf pat rest

/-- JavaScript `s.split(sep)` for a one-character separator: splits at every
occurrence, keeping empty fields. -/
def splitOnChar (sep : Char) : List Char → List (List Char)
  | [] => [[]]
  | c :: rest =>
    if c == sep then
      [] :: splitOnChar sep rest
    else
      match splitOnChar sep rest with
      | [] => [[c]]
      | w :: ws => (c :: w) :: ws

/-- JavaScript `s.trim()`: strip leading and trailing whitespace. -/
def trimList (l : List Char) : List Char :=
  ((l.dropWhile Char.isWhitespace).reverse.dropWhile Char.isWhitespace).reverse

/-- JavaScript `s.toLowerCase().trim()`, the normalization applied to names
by `generatePatterns`. -/
def toLowerTrim (s : String) : String :=
  ⟨trimList (s.data.map Char.toLower)⟩

/-- JavaScript `s.charAt(0)`: the one-character string holding the first
character, or the empty string when `s` is empty. -/
def charAt0 (s : String) : String :=
  ⟨s.data.take 1⟩

namespace EmailPatternService

/-- Provenance tag of a generated pattern. -/
inductive PatternType where
  | common
  | custom
  | domainSpecific
deriving DecidableEq

/-- `EmailPattern` of `emailPatterns.ts`.  Confidence values are produced by
purely additive bonuses on a base of 50, so `Nat` is faithful. -/
structure EmailPattern where
  pattern : String
  type : PatternType
  confidence : Nat
  «example» : String
deriving DecidableEq

/-- `EmailPatternInput` after zod parsing: `domain` is already the part
after `@`, and the optional fields are `Option`s.  (The zod length bounds on
the names are not needed by any theorem and are left to hypotheses.) -/
structure EmailPatternInput where
  domain : String
  firstName : String
  lastName : String
  companyName : Option String
  customPatterns : Option (List String)

/-- The `commonPatterns` array, duplicates included, in source order. -/
def commonPatterns : List String := [
  "firstname.lastname",
  "firstname_lastname",
  "firstname-lastname",
  "firstname.lastname",
  "f.lastname",
  "firstname.l",
  "flastname",
  "firstname",
  "lastname",
  "firstname.lastname",
  "firstname_lastname",
  "firstname-lastname",
  "firstname.lastname",
  "f.lastname",
  "firstname.l",
  "flastname",
  "firstname",
  "lastname"
]

/-- The `domainSpecificPatterns` object, in source order.  The JavaScript
object literal contains a few repeated keys with identical values (later
keys overwrite earlier ones); since the values coincide, a first-match
`List.lookup` is extensionally the object lookup. -/
def domainSpecificPatterns : List (String × List String) := [
  ("google.com", ["firstname.lastname", "firstname", "lastname"]),
  ("microsoft.com", ["firstname.lastname", "firstname_lastname"]),
  ("apple.com", ["firstname.lastname", "firstname"]),
  ("amazon.com", ["firstname.lastname", "firstname_lastname"]),
  ("meta.com", ["firstname.lastname", "firstname"]),
  ("netflix.com", ["firstname.lastname", "firstname"]),
  ("spotify.com", ["firstname.lastname", "firstname"]),
  ("uber.com", ["firstname.lastname", "firstname"]),
  ("airbnb.com", ["firstname.lastname", "firstname"]),
  ("twitter.com", ["firstname.lastname", "firstname"]),
  ("linkedin.com", ["firstname.lastname", "firstname"]),
  ("github.com", ["firstname.lastname", "firstname"]),
  ("stackoverflow.com", ["firstname.lastname", "firstname"]),
  ("reddit.com", ["firstname.lastname", "firstname"]),
  ("youtube.com", ["firstname.lastname", "firstname"]),
  ("instagram.com", ["firstname.lastname", "firstname"]),
  ("tiktok.com", ["firstname.lastname", "firstname"]),
  ("snapchat.com", ["firstname.lastname", "firstname"]),
  ("discord.com", ["firstname.lastname", "firstname"]),
  ("slack.com", ["firstname.lastname", "firstname"]),
  ("zoom.us", ["firstname.lastname", "firstname"]),
  ("salesforce.com", ["firstname.lastname", "firstname"]),
  ("oracle.com", ["firstname.lastname", "firstname"]),
  ("ibm.com", ["firstname.lastname", "firstname"]),
  ("intel.com", ["firstname.lastname", "firstname"]),
  ("nvidia.com", ["firstname.lastname", "firstname"]),
  ("amd.com", ["firstname.lastname", "firstname"]),
  ("cisco.com", ["firstname.lastname", "firstname"]),
  ("vmware.com", ["firstname.lastname", "firstname"]),
  ("adobe.com", ["firstname.lastname", "firstname"]),
  ("autodesk.com", ["firstname.lastname", "firstname"]),
  ("salesforce.com", ["firstname.lastname", "firstname"]),
  ("workday.com", ["firstname.lastname", "firstname"]),
  ("servicenow.com", ["firstname.lastname", "firstname"]),
  ("splunk.com", ["firstname.lastname", "firstname"]),
  ("palantir.com", ["firstname.lastname", "firstname"]),
  ("databricks.com", ["firstname.lastname", "firstname"]),
  ("snowflake.com", ["firstname.lastname", "firstname"]),
  ("mongodb.com", ["firstname.lastname", "firstname"]),
  ("redis.com", ["firstname.lastname", "firstname"]),
  ("elastic.co", ["firstname.lastname", "firstname"]),
  ("confluent.io", ["firstname.lastname", "firstname"]),
  ("kafka.apache.org", ["firstname.lastname", "firstname"]),
  ("apache.org", ["firstname.lastname", "firstname"]),
  ("nginx.com", ["firstname.lastname", "firstname"]),
  ("haproxy.com", ["firstname.lastname", "firstname"]),
  ("varnish-cache.org", ["firstname.lastname", "firstname"]),
  ("memcached.org", ["firstname.lastname", "firstname"]),
  ("cassandra.apache.org", ["firstname.lastname", "firstname"]),
  ("hbase.apache.org", ["firstname.lastname", "firstname"]),
  ("hadoop.apache.org", ["firstname.lastname", "firstname"]),
  ("spark.apache.org", ["firstname.lastname", "firstname"]),
  ("flink.apache.org", ["firstname.lastname", "firstname"]),
  ("storm.apache.org", ["firstname.lastname", "firstname"]),
  ("kafka.apache.org", ["firstname.lastname", "firstname"]),
  ("zookeeper.apache.org", ["firstname.lastname", "firstname"]),
  ("mesos.apache.org", ["firstname.lastname", "firstname"]),
  ("kubernetes.io", ["firstname.lastname", "firstname"]),
  ("docker.com", ["firstname.lastname", "firstname"]),
  ("rancher.com", ["firstname.lastname", "firstname"]),
  ("consul.io", ["firstname.lastname", "firstname"]),
  ("vault.hashicorp.com", ["firstname.lastname", "firstname"]),
  ("terraform.io", ["firstname.lastname", "firstname"]),
  ("packer.io", ["firstname.lastname", "firstname"]),
  ("vagrantup.com", ["firstname.lastname", "firstname"]),
  ("ansible.com", ["firstname.lastname", "firstname"]),
  ("chef.io", ["firstname.lastname", "firstname"]),
  ("puppet.com", ["firstname.lastname", "firstname"]),
  ("saltstack.com", ["firstname.lastname", "firstname"]),
  ("jenkins.io", ["firstname.lastname", "firstname"]),
  ("gitlab.com", ["firstname.lastname", "firstname"]),
  ("bitbucket.org", ["firstname.lastname", "firstname"]),
  ("atlassian.com", ["firstname.lastname", "firstname"]),
  ("jira.com", ["firstname.lastname", "firstname"]),
  ("confluence.com", ["firstname.lastname", "firstname"]),
  ("trello.com", ["firstname.lastname", "firstname"]),
  ("asana.com", ["firstname.lastname", "firstname"]),
  ("monday.com", ["firstname.lastname", "firstname"]),
  ("notion.so", ["firstname.lastname", "firstname"]),
  ("airtable.com", ["firstname.lastname", "firstname"]),
  ("smartsheet.com", ["firstname.lastname", "firstname"]),
  ("wrike.com", ["firstname.lastname", "firstname"]),
  ("clickup.com", ["firstname.lastname", "firstname"]),
  ("basecamp.com", ["firstname.lastname", "firstname"]),
  ("teamwork.com", ["firstname.lastname", "firstname"]),
  ("podio.com", ["firstname.lastname", "firstname"]),
  ("monday.com", ["firstname.lastname", "firstname"]),
  ("notion.so", ["firstname.lastname", "firstname"]),
  ("airtable.com", ["firstname.lastname", "firstname"]),
  ("smartsheet.com", ["firstname.lastname", "firstname"]),
  ("wrike.com", ["firstname.lastname", "firstname"]),
  ("clickup.com", ["firstname.lastname", "firstname"]),
  ("basecamp.com", ["firstname.lastname", "firstname"]),
  ("teamwork.com", ["firstname.lastname", "firstname"]),
  ("podio.com", ["firstname.lastname", "firstname"])
]

/-- The normalized name bundle built at the top of `generatePatterns`:
`first`/`last` are the lower-cased, trimmed names and the initials are
`first.charAt(0)` / `last.charAt(0)`. -/
structure Names where
  first : String
  last : String
  firstInitial : String
  lastInitial : String
deriving DecidableEq

/-- `buildEmail` of `emailPatterns.ts`: six chained global replaces
(`firstname`, `lastname`, `"f."`, `"l."`, `"f"`, `"l"`, in source order)
followed by appending `"@" + domain`. -/
def buildEmail (pattern : String) (names : Names) (domain : String) : String :=
  let email :=
    replaceAll ['l'] names.lastInitial.data
      (replaceAll ['f'] names.firstInitial.data
        (replaceAll ['l', '.'] (names.lastInitial.data ++ ['.'])
          (replaceAll ['f', '.'] (names.firstInitial.data ++ ['.'])
            (replaceAll "lastname".data names.last.data
              (replaceAll "firstname".data names.first.data pattern.data)))))
  ⟨email ++ "@".data ++ domain.data⟩

/-- `calculateConfidence` of `emailPatterns.ts`: base 50, plus the
provenance bonus, plus separator/length bonuses, capped by
`Math.min(confidence, 100)`. -/
def calculateConfidence (pattern : String) (ptype : PatternType) : Nat :=
  let confidence := 50
  let confidence := confidence +
    match ptype with
    | .common => 20
    | .domainSpecific => 30
    | .custom => 10
  let confidence := confidence + (if pattern.data.contains '.' then 10 else 0)
  let confidence := confidence + (if pattern.data.contains '_' then 5 else 0)
  let confidence := confidence + (if pattern.data.contains '-' then 5 else 0)
  let confidence := confidence + (if pattern.data.length > 10 then 5 else 0)
  min confidence 100

/-- The deduplication step of `generatePatterns`:
`patterns.filter((pattern, index, self) => index === self.findIndex(p =>
p.«example» === pattern.example))`, i.e. keep exactly the first occurrence of
each materialized example address.  `seen` accumulates the examples of the
records already kept. -/
def dedupByExampleGo (seen : List String) : List EmailPattern → List EmailPattern
  | [] => []
  | p :: rest =>
    if seen.contains p.«example» then
      dedupByExampleGo seen rest
    else
      p :: dedupByExampleGo (p.«example» :: seen) rest

/-- Keep the first occurrence of each materialized example address. -/
def dedupByExample (patterns : List EmailPattern) : List EmailPattern :=
  dedupByExampleGo [] patterns

/-- The sorting step of `generatePatterns`:
`uniquePatterns.sort((a, b) => b.confidence - a.confidence)` — a stable sort
descending by confidence (ECMAScript `Array.prototype.sort` is stable, and a
stable sort by a total preorder is extensionally unique, so stable insertion
sort is a faithful model). -/
def sortByConfidenceDesc (l : List EmailPattern) : List EmailPattern :=
  l.insertionSort fun a b => b.confidence ≤ a.confidence

/-- `generatePatterns` of `emailPatterns.ts`: normalize the names, build the
common / domain-specific / custom / company-derived pattern records in push
order, deduplicate by example (first occurrence wins), and sort descending
by confidence.  `if (companyName)` and `if (customPatterns)` are JavaScript
truthiness tests: an absent or empty `companyName` skips the company block
(the lower-cased `company` string it computes is unused by the source). -/
def generatePatterns (input : EmailPatternInput) : List EmailPattern :=
  let first := toLowerTrim input.firstName
  let last := toLowerTrim input.lastName
  let firstInitial := charAt0 first
  let lastInitial := charAt0 last
  let names : Names := ⟨first, last, firstInitial, lastInitial⟩
  let commonList := commonPatterns.map fun pattern =>
    { pattern := pattern, type := .common,
      confidence := calculateConfidence pattern .common,
      «example» := buildEmail pattern names input.domain : EmailPattern }
  let domainList := ((domainSpecificPatterns.lookup input.domain).getD []).map fun pattern =>
    { pattern := pattern, type := .domainSpecific,
      confidence := calculateConfidence pattern .domainSpecific,
      «example» := buildEmail pattern names input.domain : EmailPattern }
  let customList := (input.customPatterns.getD []).map fun pattern =>
    { pattern := pattern, type := .custom,
      confidence := calculateConfidence pattern .custom,
      «example» := buildEmail pattern names input.domain : EmailPattern }
  let companyList :=
    match input.companyName with
    | none => []
    | some companyName =>
      if companyName.data.isEmpty then []
      else
        let companyPatterns : List String := [
          ⟨first.data ++ ['.'] ++ last.data⟩,
          ⟨first.data ++ ['_'] ++ last.data⟩,
          ⟨first.data ++ ['-'] ++ last.data⟩,
          ⟨firstInitial.data ++ ['.'] ++ last.data⟩,
          ⟨first.data ++ ['.'] ++ lastInitial.data⟩,
          ⟨firstInitial.data ++ last.data⟩,
          ⟨first.data ++ last.data⟩]
        companyPatterns.map fun pattern =>
          { pattern := pattern, type := .domainSpecific,
            confidence := calculateConfidence pattern .domainSpecific + 10,
            «example» := buildEmail pattern names input.domain : EmailPattern }
  let patterns := commonList ++ domainList ++ customList ++ companyList
  sortByConfidenceDesc (dedupByExample patterns)

end EmailPatternService

namespace EmailValidationService

/-- The static `mxProviders` exchange-hostname → provider table, in source
order (all keys are distinct). -/
def mxProviders : List (String × String) := [
  ("aspmx.l.google.com", "Google Workspace"),
  ("alt1.aspmx.l.google.com", "Google Workspace"),
  ("alt2.aspmx.l.google.com", "Google Workspace"),
  ("alt3.aspmx.l.google.com", "Google Workspace"),
  ("alt4.aspmx.l.google.com", "Google Workspace"),
  ("outlook.com", "Microsoft 365"),
  ("outlook.office365.com", "Microsoft 365"),
  ("mail.protection.outlook.com", "Microsoft 365"),
  ("zoho.com", "Zoho"),
  ("zoho.eu", "Zoho"),
  ("zoho.in", "Zoho"),
  ("zoho.com.au", "Zoho"),
  ("zoho.com.cn", "Zoho"),
  ("zoho.com.jp", "Zoho"),
  ("zoho.com.sg", "Zoho"),
  ("zoho.com.my", "Zoho"),
  ("zoho.com.ph", "Zoho"),
  ("zoho.com.tw", "Zoho"),
  ("zoho.com.hk", "Zoho"),
  ("zoho.com.kr", "Zoho"),
  ("zoho.com.th", "Zoho"),
  ("zoho.com.vn", "Zoho"),
  ("zoho.com.id", "Zoho"),
  ("zoho.com.bd", "Zoho"),
  ("zoho.com.lk", "Zoho"),
  ("zoho.com.np", "Zoho"),
  ("zoho.com.pk", "Zoho"),
  ("zoho.com.af", "Zoho"),
  ("zoho.com.ir", "Zoho"),
  ("zoho.com.iq", "Zoho"),
  ("zoho.com.sa", "Zoho"),
  ("zoho.com.ae", "Zoho"),
  ("zoho.com.eg", "Zoho"),
  ("zoho.com.ma", "Zoho"),
  ("zoho.com.tn", "Zoho"),
  ("zoho.com.dz", "Zoho"),
  ("zoho.com.ly", "Zoho"),
  ("zoho.com.sd", "Zoho"),
  ("zoho.com.et", "Zoho"),
  ("zoho.com.ke", "Zoho"),
  ("zoho.com.ug", "Zoho"),
  ("zoho.com.tz", "Zoho"),
  ("zoho.com.rw", "Zoho"),
  ("zoho.com.bi", "Zoho"),
  ("zoho.com.mg", "Zoho"),
  ("zoho.com.mu", "Zoho"),
  ("zoho.com.sc", "Zoho"),
  ("zoho.com.km", "Zoho"),
  ("zoho.com.dj", "Zoho"),
  ("zoho.com.so", "Zoho"),
  ("zoho.com.er", "Zoho"),
  ("zoho.com.ss", "Zoho"),
  ("zoho.com.cf", "Zoho"),
  ("zoho.com.td", "Zoho"),
  ("zoho.com.cm", "Zoho"),
  ("zoho.com.ga", "Zoho"),
  ("zoho.com.cg", "Zoho"),
  ("zoho.com.cd", "Zoho"),
  ("zoho.com.ao", "Zoho"),
  ("zoho.com.zm", "Zoho"),
  ("zoho.com.zw", "Zoho"),
  ("zoho.com.bw", "Zoho"),
  ("zoho.com.na", "Zoho"),
  ("zoho.com.sz", "Zoho"),
  ("zoho.com.ls", "Zoho"),
  ("zoho.com.mz", "Zoho"),
  ("amazonaws.com", "AWS SES"),
  ("mimecast.com", "Mimecast"),
  ("mimecast.net", "Mimecast"),
  ("proofpoint.com", "Proofpoint"),
  ("proofpoint.net", "Proofpoint"),
  ("barracuda.com", "Barracuda"),
  ("barracudanetworks.com", "Barracuda"),
  ("symantec.com", "Symantec"),
  ("broadcom.com", "Broadcom"),
  ("trendmicro.com", "Trend Micro"),
  ("mcafee.com", "McAfee"),
  ("sophos.com", "Sophos"),
  ("kaspersky.com", "Kaspersky"),
  ("eset.com", "ESET"),
  ("avast.com", "Avast"),
  ("avg.com", "AVG"),
  ("norton.com", "Norton"),
  ("bitdefender.com", "Bitdefender"),
  ("malwarebytes.com", "Malwarebytes"),
  ("webroot.com", "Webroot"),
  ("panda.com", "Panda"),
  ("f-secure.com", "F-Secure"),
  ("gdata.com", "G Data"),
  ("emsisoft.com", "Emsisoft"),
  ("adaware.com", "Ad-Aware"),
  ("superantispyware.com", "SUPERAntiSpyware"),
  ("spybot.com", "Spybot"),
  ("spywareblaster.com", "SpywareBlaster"),
  ("spywareterminator.com", "Spyware Terminator"),
  ("spywarenuker.com", "Spyware Nuker"),
  ("spywaredoctor.com", "Spyware Doctor"),
  ("spywareguard.com", "Spyware Guard"),
  ("spywarehunter.com", "Spyware Hunter"),
  ("spywarekiller.com", "Spyware Killer"),
  ("spywarepreventer.com", "Spyware Preventer"),
  ("spywareremover.com", "Spyware Remover"),
  ("spywarescanner.com", "Spyware Scanner"),
  ("spywareshield.com", "Spyware Shield"),
  ("spywarestopper.com", "Spyware Stopper"),
  ("spywaretracker.com", "Spyware Tracker"),
  ("spywarewarrior.com", "Spyware Warrior"),
  ("spywarezapper.com", "Spyware Zapper")
]

/-- `this.mxProviders[record.exchange]`: exact-key object lookup. -/
def mxProvidersLookup (exchange : String) : Option String :=
  mxProviders.lookup exchange

/-- An MX record as returned by the DNS resolver (`dns/promises.resolveMx`). -/
structure RawMX where
  exchange : String
  priority : Nat
deriving DecidableEq

/-- `MXRecord` of the validation service. -/
structure MXRecord where
  exchange : String
  priority : Nat
  provider : Option String
deriving DecidableEq

/-- The `records.map(...)` body of `getMXRecords`: annotate each resolver
record with the exact-lookup provider label. -/
def annotateMXRecords (records : List RawMX) : List MXRecord :=
  records.map fun record =>
    { exchange := record.exchange, priority := record.priority,
      provider := mxProvidersLookup record.exchange }

/-- `getMXRecords`: on resolver success, annotate the records; on resolver
failure, re-throw with the wrapping message. -/
def getMXRecords (resolved : Except String (List RawMX)) (domain : String) :
    Except String (List MXRecord) :=
  match resolved with
  | .ok records => .ok (annotateMXRecords records)
  | .error e => .error ("Failed to resolve MX records for " ++ domain ++ ": " ++ e)

/-- `detectMXProvider`: scan the records in the order given and return the
first provider label present. -/
def detectMXProvider : List MXRecord → Option String
  | [] => none
  | record :: rest =>
    match record.provider with
    | some p => some p
    | none => detectMXProvider rest

/-- State of the `data` handler of `connectToSMTP`: the `isValid` flag and
the commands written to the socket so far. -/
structure SMTPLineState where
  isValid : Bool
  sent : List String
deriving DecidableEq

/-- One iteration of the `for (const line of lines)` body of
`connectToSMTP`'s `data` handler, the if/else-if chain over the response
line, transcribed branch for branch (including the two `line.includes`
branches that are shadowed by the plain `line.startsWith('250')` branch
before them). -/
def processSMTPLine (email : String) (st : SMTPLineState) (line : String) : SMTPLineState :=
  if "220".data.isPrefixOf line.data then
    { st with sent := st.sent ++ ["HELO example.com\r\n"] }
  else if "250".data.isPrefixOf line.data then
    { st with sent := st.sent ++ ["MAIL FROM: <test@example.com>\r\n"] }
  else if "250".data.isPrefixOf line.data && isSubstringOf "MAIL FROM".data line.data then
    { st with sent := st.sent ++ ["RCPT TO: <" ++ email ++ ">\r\n"] }
  else if "250".data.isPrefixOf line.data && isSubstringOf "RCPT TO".data line.data then
    { isValid := true, sent := st.sent ++ ["QUIT\r\n"] }
  else if "550".data.isPrefixOf line.data || "551".data.isPrefixOf line.data ||
      "553".data.isPrefixOf line.data then
    { isValid := false, sent := st.sent ++ ["QUIT\r\n"] }
  else
    st

/-- The handshake of `connectToSMTP` against a server reply transcript,
given as the list of `\r\n`-separated lines: the `connect` handler first
writes `HELO example.com`, then every line is run through the if/else-if
chain.  (The source re-scans the accumulated buffer on every `data` event;
folding once over the final line list runs each branch the handler would
run on the event that delivered the line.) -/
def processSMTPLines (email : String) (lines : List String) : SMTPLineState :=
  lines.foldl (processSMTPLine email) { isValid := false, sent := ["HELO example.com\r\n"] }

/-- Outcome of one `connectToSMTP` call.  The promise always resolves (the
timeout, `error` and `close` handlers all `resolve`), so the outcome is a
plain record: `response`/`error` model the optional fields of the resolved
object. -/
structure ConnectResult where
  isValid : Bool
  response : Option String
  error : Option String
deriving DecidableEq

/-- Result shape of `validateSMTP`: `response` is only set on success,
`errors` only on failure. -/
structure SMTPResult where
  isValid : Bool
  response : Option String
  errors : Option (List String)
deriving DecidableEq

/-- `mxRecords.sort((a, b) => a.priority - b.priority)` — a stable ascending
sort by priority, modelled by stable insertion sort (ECMAScript
`Array.prototype.sort` is stable, and a stable sort by a total preorder is
extensionally unique). -/
def sortByPriority (records : List MXRecord) : List MXRecord :=
  records.insertionSort fun a b => a.priority ≤ b.priority

/-- The exchanger loop of `validateSMTP`: `conn` is the oracle giving the
`connectToSMTP` outcome per exchange hostname (the target email and the
timeout are fixed for the whole loop and absorbed into the oracle);
`errors` accumulates one error string per failed exchanger.  The
`try`/`catch` around `connectToSMTP` is dead — the promise never rejects —
so no throw case is modelled. -/
def validateSMTPGo (conn : String → ConnectResult) (errors : List String) :
    List MXRecord → SMTPResult
  | [] => { isValid := false, response := none, errors := some errors }
  | mxRecord :: rest =>
    if (conn mxRecord.exchange).isValid then
      { isValid := true, response := (conn mxRecord.exchange).response, errors := none }
    else
      validateSMTPGo conn
        (errors ++ [((conn mxRecord.exchange).error).getD "SMTP validation failed"]) rest

/-- `validateSMTP`: sort the records ascending by priority, then walk them
with `validateSMTPGo`. -/
def validateSMTP (conn : String → ConnectResult) (records : List MXRecord) : SMTPResult :=
  validateSMTPGo conn [] (sortByPriority records)

/-- `calculateConfidence` of the validation service: base 80/20, −20 for
catch-all, +10 for more than one MX record, then
`Math.max(0, Math.min(100, confidence))`. -/
def calculateConfidence (isValid : Bool) (isCatchAll : Bool) (mxCount : Nat) : Int :=
  let confidence : Int := 0
  let confidence := confidence + (if isValid then 80 else 20)
  let confidence := confidence - (if isCatchAll then 20 else 0)
  let confidence := confidence + (if mxCount > 1 then 10 else 0)
  max 0 (min 100 confidence)

/-- `validationMethod` values. -/
inductive ValidationMethod where
  | smtp
  | mxOnly
  | formatOnly
deriving DecidableEq

/-- `EmailValidationResult` of the validation service.  Optional fields of
the source object are `Option`s; absent means `none`. -/
structure EmailValidationResult where
  email : String
  isValid : Bool
  isCatchAll : Bool
  mxRecords : List MXRecord
  mxProvider : Option String
  smtpResponse : Option String
  validationMethod : ValidationMethod
  confidence : Int
  errors : Option (List String)
deriving DecidableEq

/-- The network environment of one `validateEmail` call: the DNS resolver
outcome per domain, the `connectToSMTP` outcome per exchange hostname for
the target address, and the same for the random catch-all probe address
(whose random local part is folded into the oracle). -/
structure Env where
  resolveMx : String → Except String (List RawMX)
  conn : String → ConnectResult
  connCatchAll : String → ConnectResult

/-- `EmailValidationInput` after zod parsing (the timeout is absorbed into
the connection oracles). -/
structure ValidationInput where
  email : String
  validateSmtp : Bool
  checkCatchAll : Bool

/-- `email.split('@')[1]` followed by the `if (!domain)` truthiness guard:
`none` when the index-1 field is missing or empty. -/
def getDomain (email : String) : Option String :=
  match (splitOnChar '@' email.data).get? 1 with
  | none => none
  | some d => if d.isEmpty then none else some ⟨d⟩

/-- `validateEmail`.  The `Invalid email format` throw sits before the
`try`, so it surfaces as `.error`; everything inside the `try` is caught
and becomes an `.ok` result.  `validateSMTP` sorts the `mxRecords` array in
place, so the result's `mxRecords` field is the priority-sorted list
whenever the SMTP branch runs.  `checkCatchAll` re-runs `validateSMTP`
against the random address and returns its `isValid` (its `try`/`catch` is
dead code — `validateSMTP` never rejects). -/
def validateEmail (env : Env) (input : ValidationInput) :
    Except String EmailValidationResult :=
  match getDomain input.email with
  | none => .error "Invalid email format"
  | some domain =>
    match getMXRecords (env.resolveMx domain) domain with
    | .error e =>
      .ok { email := input.email, isValid := false, isCatchAll := false,
            mxRecords := [], mxProvider := none, smtpResponse := none,
            validationMethod := .smtp, confidence := 0, errors := some [e] }
    | .ok mxRecords =>
      if mxRecords.isEmpty then
        .ok { email := input.email, isValid := false, isCatchAll := false,
              mxRecords := [], mxProvider := none, smtpResponse := none,
              validationMethod := .mxOnly, confidence := 0,
              errors := some ["No MX records found"] }
      else
        let mxProvider := detectMXProvider mxRecords
        if !input.validateSmtp then
          .ok { email := input.email, isValid := true, isCatchAll := false,
                mxRecords := mxRecords, mxProvider := mxProvider,
                smtpResponse := none, validationMethod := .mxOnly,
                confidence := 70, errors := none }
        else
          let sortedMX := sortByPriority mxRecords
          let smtpResult := validateSMTP env.conn mxRecords
          let isCatchAll :=
            if input.checkCatchAll then (validateSMTP env.connCatchAll sortedMX).isValid
            else false
          .ok { email := input.email, isValid := smtpResult.isValid,
                isCatchAll := isCatchAll, mxRecords := sortedMX,
                mxProvider := mxProvider, smtpResponse := smtpResult.response,
                validationMethod := .smtp,
                confidence := calculateConfidence smtpResult.isValid isCatchAll sortedMX.length,
                errors := smtpResult.errors }

end EmailValidationService

/-- Modelled from the spec (claim C4 wording, for refutation): a record is
labelled when its exchange hostname, or a known suffix of it, matches the
provider table; detection scans the records in ascending priority order and
returns the first label. -/
def claimSuffixLookup (exchange : String) : Option String :=
  EmailValidationService.mxProviders.findSome? fun entry =>
    if entry.1.data.isSuffixOf exchange.data then some entry.2 else none

/-- Modelled from the spec (claim C4 wording, for refutation): provider
detection with suffix matching, scanning in ascending priority order. -/
def claimDetectMXProvider (records : List EmailValidationService.RawMX) : Option String :=
  (EmailValidationService.sortByPriority
      (EmailValidationService.annotateMXRecords records)).findSome?
    fun r => claimSuffixLookup r.exchange

/-- A name made of lower-case letters other than `f` and `l`, non-empty.
Under this restriction the single-letter replaces of `buildEmail` cannot
rewrite characters of the substituted names. -/
def GoodName (s : String) : Prop :=
  s.data ≠ [] ∧ ∀ c ∈ s.data, ('a' ≤ c ∧ c ≤ 'z') ∧ c ≠ 'f' ∧ c ≠ 'l'

instance (s : String) : Decidable (GoodName s) := by
  unfold GoodName
  infer_instance

section ReplaceAllLemmas

/-- `replaceAllGo` does not depend on the fuel once the fuel dominates the
length of the subject. -/
theorem replaceAllGo_fuel (pat rep : List Char) :
    ∀ (fuel₁ fuel₂ : Nat) (s : List Char), s.length ≤ fuel₁ → s.length ≤ fuel₂ →
      replaceAllGo pat rep fuel₁ s = replaceAllGo pat rep fuel₂ s := by
  intro fuel₁
  induction fuel₁ with
  | zero =>
    intro fuel₂ s hs₁ _
    have : s = [] := List.length_eq_zero.mp (Nat.le_zero.mp hs₁)
    subst this
    cases fuel₂ <;> rfl
  | succ n ih =>
    intro fuel₂ s hs₁ hs₂
    cases s with
    | nil => cases fuel₂ <;> rfl
    | cons c rest =>
      cases fuel₂ with
      | zero => exact absurd hs₂ (by simp)
      | succ m =>
        have hr : rest.length ≤ n := by simpa using hs₁
        have hr₂ : rest.length ≤ m := by simpa using hs₂
        simp only [replaceAllGo]
        cases hb : pat.isPrefixOf (c :: rest) && !pat.isEmpty with
        | true =>
          have hdrop : (rest.drop (pat.length - 1)).length ≤ n := by
            have := List.length_drop (pat.length - 1) rest
            omega
          have hdrop₂ : (rest.drop (pat.length - 1)).length ≤ m := by
            have := List.length_drop (pat.length - 1) rest
            omega
          simp [ih _ _ hdrop hdrop₂]
        | false =>
          simp [ih _ _ hr hr₂]

theorem replaceAll_nil (pat rep : List Char) : replaceAll pat rep [] = [] := rfl

/-- Unfolding `replaceAll` at a position where the pattern matches. -/
theorem replaceAll_match (pat rep : List Char) (c : Char) (rest : List Char)
    (h : pat.isPrefixOf (c :: rest) = true) (hne : pat ≠ []) :
    replaceAll pat rep (c :: rest) =
      rep ++ replaceAll pat rep (rest.drop (pat.length - 1)) := by
  unfold replaceAll
  have hcond : (pat.isPrefixOf (c :: rest) && !pat.isEmpty) = true := by
    rw [h]
    simp [List.isEmpty_iff, hne]
  simp only [List.length_cons, replaceAllGo, hcond, if_true]
  congr 1
  apply replaceAllGo_fuel
  · have := List.length_drop (pat.length - 1) rest
    omega
  · exact Nat.le_refl _

/-- Unfolding `replaceAll` at a position where the pattern does not match. -/
theorem replaceAll_skip (pat rep : List Char) (c : Char) (rest : List Char)
    (h : pat.isPrefixOf (c :: rest) = false) :
    replaceAll pat rep (c :: rest) = c :: replaceAll pat rep rest := by
  unfold replaceAll
  have hcond : (pat.isPrefixOf (c :: rest) && !pat.isEmpty) = false := by
    rw [h]
    rfl
  simp [List.length_cons, replaceAllGo, hcond]

/-- A prefix's characters are characters of the whole list. -/
theorem isPrefixOf_mem : ∀ (pat s : List Char), pat.isPrefixOf s = true →
    ∀ a ∈ pat, a ∈ s := by
  intro pat
  induction pat with
  | nil => intro s _ a ha; cases ha
  | cons p ps ih =>
    intro s hpre a ha
    cases s with
    | nil => simp [List.isPrefixOf] at hpre
    | cons b bs =>
      simp only [List.isPrefixOf, Bool.and_eq_true, beq_iff_eq] at hpre
      rcases ha with _ | ha
      · simp [hpre.1]
      · exact List.mem_cons_of_mem _ (ih bs hpre.2 a (by assumption))

/-- If some character of the pattern never occurs in the subject, the global
replace is the identity. -/
theorem replaceAll_of_not_mem (pat rep : List Char) (a : Char)
    (ha : a ∈ pat) : ∀ (s : List Char), a ∉ s → replaceAll pat rep s = s := by
  intro s
  induction s with
  | nil => intro _; rfl
  | cons c rest ih =>
    intro hnot
    have hpre : pat.isPrefixOf (c :: rest) = false := by
      by_contra h
      have := isPrefixOf_mem pat (c :: rest) (by simpa using h) a ha
      exact hnot this
    rw [replaceAll_skip pat rep c rest hpre]
    have : a ∉ rest := fun h => hnot (List.mem_cons_of_mem _ h)
    rw [ih this]

/-- A global replace distributes over an append whose left block never
contains the pattern's first character: no occurrence can start inside (or
at the boundary of) the left block. -/
theorem replaceAll_append_left (p : Char) (ps rep : List Char) :
    ∀ (l₁ l₂ : List Char), p ∉ l₁ →
      replaceAll (p :: ps) rep (l₁ ++ l₂) = l₁ ++ replaceAll (p :: ps) rep l₂ := by
  intro l₁
  induction l₁ with
  | nil => intro l₂ _; rfl
  | cons c rest ih =>
    intro l₂ hnot
    have hc : p ≠ c := fun h => hnot (by simp [h])
    have hpre : (p :: ps).isPrefixOf (c :: (rest ++ l₂)) = false := by
      simp only [List.isPrefixOf, Bool.and_eq_false_iff, beq_eq_false_iff_ne, ne_eq]
      exact Or.inl hc
    rw [List.cons_append, replaceAll_skip _ rep c (rest ++ l₂) hpre]
    rw [ih l₂ (fun h => hnot (List.mem_cons_of_mem _ h))]
    rfl

end ReplaceAllLemmas

section ValidationLemmas

open EmailValidationService

/-- The if/else-if chain of the `data` handler can only keep or clear the
`isValid` flag: the branch that would set it is shadowed by the plain
`startsWith('250')` branch in front of it. -/
theorem processSMTPLine_isValid_false (email : String) (st : SMTPLineState) (line : String)
    (h : st.isValid = false) :
    (processSMTPLine email st line).isValid = false := by
  unfold processSMTPLine
  repeat' split
  all_goals simp_all

/-- Folding the `data` handler over any line list preserves a cleared
`isValid` flag. -/
theorem processSMTPLines_foldl_false (email : String) (lines : List String) :
    ∀ st : SMTPLineState, st.isValid = false →
      (lines.foldl (processSMTPLine email) st).isValid = false := by
  induction lines with
  | nil => intro st h; exact h
  | cons line rest ih =>
    intro st h
    exact ih _ (processSMTPLine_isValid_false email st line h)

/-- `detectMXProvider` is first-label-in-list-order. -/
theorem detectMXProvider_eq_findSome? (l : List MXRecord) :
    detectMXProvider l = l.findSome? fun r => r.provider := by
  induction l with
  | nil => rfl
  | cons r rest ih =>
    unfold detectMXProvider
    rw [List.findSome?_cons]
    cases r.provider with
    | none => simpa using ih
    | some p => simp

end ValidationLemmas

/-- C9: the SMTP-side confidence scorer `calculateConfidence` is base 80
when the address was accepted and 20 otherwise, minus 20 when the domain is
flagged catch-all, plus 10 when more than one MX record exists, clamped to
[0, 100]; in particular `score(true, false, 2) = 90`,
`score(true, true, 1) = 60` and `score(false, false, 1) = 20`. -/
theorem smtp_confidence_formula :
    (∀ (isValid isCatchAll : Bool) (mxCount : Nat),
      EmailValidationService.calculateConfidence isValid isCatchAll mxCount =
        max 0 (min 100 ((if isValid then (80 : Int) else 20) -
          (if isCatchAll then (20 : Int) else 0) +
          (if mxCount > 1 then (10 : Int) else 0))) ∧
      0 ≤ EmailValidationService.calculateConfidence isValid isCatchAll mxCount ∧
      EmailValidationService.calculateConfidence isValid isCatchAll mxCount ≤ 100) ∧
    EmailValidationService.calculateConfidence true false 2 = 90 ∧
    EmailValidationService.calculateConfidence true true 1 = 60 ∧
    EmailValidationService.calculateConfidence false false 1 = 20 := by
  refine ⟨fun isValid isCatchAll mxCount => ⟨?_, ?_, ?_⟩, by decide, by decide, by decide⟩
  · unfold EmailValidationService.calculateConfidence
    cases isValid <;> cases isCatchAll <;> by_cases hm : mxCount > 1 <;>
      simp [hm]
  · unfold EmailValidationService.calculateConfidence
    exact le_max_left 0 _
  · unfold EmailValidationService.calculateConfidence
    exact max_le (by norm_num) (min_le_left _ _)

/-- C1 (code bug): in the `data` handler of `connectToSMTP`, every line
starting with `250` takes the plain `startsWith('250')` branch and answers
`MAIL FROM` again, so the `RCPT TO` and acceptance branches are unreachable
and the probe never reports `accepted = true` — for no server response
sequence whatsoever.  On the transcript of a fully accepting server
(`220` greeting then three `250` acknowledgments) the handler sends `HELO`
twice and `MAIL FROM` three times, never `RCPT TO`, and ends with
`isValid = false`. -/
theorem smtp_handshake_never_accepts :
    (∀ (email : String) (lines : List String),
      (EmailValidationService.processSMTPLines email lines).isValid = false) ∧
    EmailValidationService.processSMTPLines "user@example.org"
        ["220 mx.example.org ESMTP", "250 ok", "250 ok", "250 ok"] =
      { isValid := false,
        sent := ["HELO example.com\r\n", "HELO example.com\r\n",
                 "MAIL FROM: <test@example.com>\r\n", "MAIL FROM: <test@example.com>\r\n",
                 "MAIL FROM: <test@example.com>\r\n"] } := by
  constructor
  · intro email lines
    exact processSMTPLines_foldl_false email lines _ rfl
  · decide

/-- C4 (amended): each MX record's provider label is the exact-key lookup
of its exchange hostname in the static table — a hostname that merely has a
table key as a proper suffix gets no label — and `detectMXProvider` returns
the label of the first labelled record in the order the records are given
(the resolver's order; it does not re-sort by priority). -/
theorem mx_provider_exact_match_list_order (records : List EmailValidationService.RawMX) :
    ((EmailValidationService.annotateMXRecords records).map (fun r => r.provider) =
      records.map fun r => EmailValidationService.mxProvidersLookup r.exchange) ∧
    EmailValidationService.detectMXProvider (EmailValidationService.annotateMXRecords records) =
      (EmailValidationService.annotateMXRecords records).findSome? fun r => r.provider := by
  constructor
  · simp [EmailValidationService.annotateMXRecords]
  · exact detectMXProvider_eq_findSome? _

/-- C4 counterexample: `mx00.mail.protection.outlook.com` has the table key
`mail.protection.outlook.com` as a suffix, so the claimed suffix-matching,
priority-ordered detection would answer `Microsoft 365`; the code's
exact-key lookup leaves that record unlabelled and answers `Zoho` from the
second record. -/
theorem mx_provider_suffix_counterexample :
    EmailValidationService.detectMXProvider (EmailValidationService.annotateMXRecords
        [⟨"mx00.mail.protection.outlook.com", 10⟩, ⟨"zoho.com", 20⟩]) = some "Zoho" ∧
    claimDetectMXProvider [⟨"mx00.mail.protection.outlook.com", 10⟩, ⟨"zoho.com", 20⟩] =
      some "Microsoft 365" ∧
    (some "Zoho" : Option String) ≠ some "Microsoft 365" :=
  ⟨by decide, by decide, by decide⟩

section ValidateSMTPLemmas

open EmailValidationService

/-- The exchanger loop accepts iff some exchanger in the list accepts. -/
theorem validateSMTPGo_isValid_iff (conn : String → ConnectResult) :
    ∀ (l : List MXRecord) (errors : List String),
      (validateSMTPGo conn errors l).isValid = true ↔
        ∃ mx ∈ l, (conn mx.exchange).isValid = true := by
  intro l
  induction l with
  | nil => intro errors; simp [validateSMTPGo]
  | cons mx rest ih =>
    intro errors
    unfold validateSMTPGo
    cases h : (conn mx.exchange).isValid with
    | true => simp [h]
    | false => simp [h, ih]

/-- When no exchanger accepts, the loop reports one error per exchanger, in
order, appended to the accumulator. -/
theorem validateSMTPGo_all_fail (conn : String → ConnectResult) :
    ∀ (l : List MXRecord) (errors : List String),
      (validateSMTPGo conn errors l).isValid = false →
      validateSMTPGo conn errors l =
        { isValid := false, response := none,
          errors := some (errors ++ l.map
            fun mx => ((conn mx.exchange).error).getD "SMTP validation failed") } := by
  intro l
  induction l with
  | nil => intro errors _; simp [validateSMTPGo]
  | cons mx rest ih =>
    intro errors hval
    unfold validateSMTPGo at hval ⊢
    cases h : (conn mx.exchange).isValid with
    | true => rw [h] at hval; simp at hval
    | false =>
      rw [h] at hval
      simp only [Bool.false_eq_true, if_false] at hval ⊢
      rw [ih _ hval]
      simp

/-- The loop stops at the first accepting exchanger and returns its
response. -/
theorem validateSMTPGo_first_accept (conn : String → ConnectResult) :
    ∀ (pre : List MXRecord) (mx : MXRecord) (post : List MXRecord) (errors : List String),
      (∀ q ∈ pre, (conn q.exchange).isValid = false) →
      (conn mx.exchange).isValid = true →
      validateSMTPGo conn errors (pre ++ mx :: post) =
        { isValid := true, response := (conn mx.exchange).response, errors := none } := by
  intro pre
  induction pre with
  | nil =>
    intro mx post errors _ hacc
    unfold validateSMTPGo
    simp [hacc]
  | cons q pre' ih =>
    intro mx post errors hpre hacc
    have hq : (conn q.exchange).isValid = false := hpre q (by simp)
    rw [List.cons_append]
    unfold validateSMTPGo
    simp only [hq, Bool.false_eq_true, if_false]
    exact ih mx post _ (fun r hr => hpre r (by simp [hr])) hacc

/-- Ascending-priority sortedness of the exchanger ordering. -/
theorem sortByPriority_sorted (records : List MXRecord) :
    (sortByPriority records).Pairwise fun a b => a.priority ≤ b.priority := by
  have h := @List.sorted_insertionSort MXRecord (fun a b => a.priority ≤ b.priority) _
    ⟨fun a b => Nat.le_total a.priority b.priority⟩
    ⟨fun a b c hab hbc => Nat.le_trans hab hbc⟩ records
  exact h

/-- Sorting the exchangers permutes them. -/
theorem sortByPriority_perm (records : List MXRecord) :
    (sortByPriority records).Perm records :=
  List.perm_insertionSort _ records

end ValidateSMTPLemmas

/-- C7: the SMTP probe walks the exchangers in ascending priority order;
it accepts exactly when some exchanger accepts, it returns as soon as the
first accepting exchanger (in that order) is reached — with that
exchanger's response and without consulting the later ones — and when no
exchanger accepts it reports one error per exchanger in probe order. -/
theorem validateSMTP_priority_first_accept (conn : String → EmailValidationService.ConnectResult)
    (records : List EmailValidationService.MXRecord) :
    ((EmailValidationService.sortByPriority records).Pairwise
      fun a b => a.priority ≤ b.priority) ∧
    ((EmailValidationService.validateSMTP conn records).isValid = true ↔
      ∃ mx ∈ records, (conn mx.exchange).isValid = true) ∧
    ((EmailValidationService.validateSMTP conn records).isValid = false →
      (EmailValidationService.validateSMTP conn records).errors =
        some ((EmailValidationService.sortByPriority records).map
          fun mx => ((conn mx.exchange).error).getD "SMTP validation failed")) ∧
    (∀ (pre : List EmailValidationService.MXRecord) (mx : EmailValidationService.MXRecord)
        (post : List EmailValidationService.MXRecord),
      EmailValidationService.sortByPriority records = pre ++ mx :: post →
      (∀ q ∈ pre, (conn q.exchange).isValid = false) →
      (conn mx.exchange).isValid = true →
      EmailValidationService.validateSMTP conn records =
        { isValid := true, response := (conn mx.exchange).response, errors := none }) := by
  refine ⟨sortByPriority_sorted records, ?_, ?_, ?_⟩
  · rw [EmailValidationService.validateSMTP, validateSMTPGo_isValid_iff]
    constructor
    · rintro ⟨mx, hmx, hacc⟩
      exact ⟨mx, (sortByPriority_perm records).mem_iff.mp hmx, hacc⟩
    · rintro ⟨mx, hmx, hacc⟩
      exact ⟨mx, (sortByPriority_perm records).mem_iff.mpr hmx, hacc⟩
  · intro hval
    rw [EmailValidationService.validateSMTP] at hval ⊢
    rw [validateSMTPGo_all_fail conn _ [] hval]
    simp
  · intro pre mx post hsplit hpre hacc
    rw [EmailValidationService.validateSMTP, hsplit]
    exact validateSMTPGo_first_accept conn pre mx post [] hpre hacc

/-- C8: when the domain resolves to zero MX records, `validateEmail`
returns `isValid = false`, `mxRecords = []`, `confidence = 0`, method
`mx-only` and the "No MX records found" error.  The environment — in
particular both SMTP connection oracles — is universally quantified and
never consulted, which formalizes that no SMTP probe is performed. -/
theorem validateEmail_zero_mx_records (env : EmailValidationService.Env)
    (input : EmailValidationService.ValidationInput) (domain : String)
    (hd : EmailValidationService.getDomain input.email = some domain)
    (hres : env.resolveMx domain = .ok []) :
    EmailValidationService.validateEmail env input = .ok
      { email := input.email, isValid := false, isCatchAll := false, mxRecords := [],
        mxProvider := none, smtpResponse := none,
        validationMethod := .mxOnly, confidence := 0,
        errors := some ["No MX records found"] } := by
  unfold EmailValidationService.validateEmail
  rw [hd]
  simp [EmailValidationService.getMXRecords, hres, EmailValidationService.annotateMXRecords]

/-- C8 witness: a concrete environment whose resolver returns no MX
records. -/
theorem validateEmail_zero_mx_records_witness :
    EmailValidationService.getDomain "alice@example.com" = some "example.com" ∧
    EmailValidationService.validateEmail
      ⟨fun _ => .ok [], fun _ => ⟨false, none, none⟩, fun _ => ⟨false, none, none⟩⟩
      ⟨"alice@example.com", true, true⟩ = .ok
      { email := "alice@example.com", isValid := false, isCatchAll := false, mxRecords := [],
        mxProvider := none, smtpResponse := none,
        validationMethod := .mxOnly, confidence := 0,
        errors := some ["No MX records found"] } :=
  ⟨by decide,
   validateEmail_zero_mx_records
     ⟨fun _ => .ok [], fun _ => ⟨false, none, none⟩, fun _ => ⟨false, none, none⟩⟩
     ⟨"alice@example.com", true, true⟩ "example.com" (by decide) rfl⟩

/-- C5 (amended): for every input whose email has a non-empty domain part
after `@`, `validateEmail` returns a result and never an unhandled fault,
and a resolver failure is caught and surfaces as `isValid = false`, empty
MX list, confidence 0, method `smtp`, with the wrapped resolver message
preserved as the only error.  (Probe failures are handled inside the SMTP
loop and cannot throw; inputs without a domain part are the subject of the
counterexample.) -/
theorem validateEmail_total_and_catches (env : EmailValidationService.Env)
    (input : EmailValidationService.ValidationInput) (domain : String)
    (hd : EmailValidationService.getDomain input.email = some domain) :
    (∃ r, EmailValidationService.validateEmail env input = .ok r) ∧
    (∀ e, env.resolveMx domain = .error e →
      EmailValidationService.validateEmail env input = .ok
        { email := input.email, isValid := false, isCatchAll := false, mxRecords := [],
          mxProvider := none, smtpResponse := none,
          validationMethod := .smtp, confidence := 0,
          errors := some ["Failed to resolve MX records for " ++ domain ++ ": " ++ e] }) := by
  cases henv : env.resolveMx domain with
  | error e0 =>
    have heq : EmailValidationService.validateEmail env input = .ok
        { email := input.email, isValid := false, isCatchAll := false, mxRecords := [],
          mxProvider := none, smtpResponse := none,
          validationMethod := .smtp, confidence := 0,
          errors := some ["Failed to resolve MX records for " ++ domain ++ ": " ++ e0] } := by
      unfold EmailValidationService.validateEmail
      rw [hd]
      simp [EmailValidationService.getMXRecords, henv]
    constructor
    · exact ⟨_, heq⟩
    · intro e he
      injection he with he2
      subst he2
      exact heq
  | ok records =>
    constructor
    · unfold EmailValidationService.validateEmail
      rw [hd]
      simp only [EmailValidationService.getMXRecords, henv]
      split_ifs <;> exact ⟨_, rfl⟩
    · intro e he
      exact absurd he (by simp)

/-- C5 witness: a concrete environment whose resolver fails with
`ENOTFOUND`. -/
theorem validateEmail_total_and_catches_witness :
    EmailValidationService.getDomain "bob@nomx.example" = some "nomx.example" ∧
    EmailValidationService.validateEmail
      ⟨fun _ => .error "ENOTFOUND", fun _ => ⟨false, none, none⟩, fun _ => ⟨false, none, none⟩⟩
      ⟨"bob@nomx.example", true, false⟩ = .ok
      { email := "bob@nomx.example", isValid := false, isCatchAll := false, mxRecords := [],
        mxProvider := none, smtpResponse := none,
        validationMethod := .smtp, confidence := 0,
        errors := some ["Failed to resolve MX records for " ++ "nomx.example" ++ ": " ++
          "ENOTFOUND"] } :=
  ⟨by decide,
   (validateEmail_total_and_catches
     ⟨fun _ => .error "ENOTFOUND", fun _ => ⟨false, none, none⟩, fun _ => ⟨false, none, none⟩⟩
     ⟨"bob@nomx.example", true, false⟩ "nomx.example" (by decide)).2 "ENOTFOUND" rfl⟩

/-- C5 counterexample: an input without an `@domain` part makes
`validateEmail` throw `Invalid email format` — the guard sits before the
`try`/`catch`, so the claim's "never raises for every input string" is
false. -/
theorem validateEmail_format_throw_counterexample :
    EmailValidationService.validateEmail
      ⟨fun _ => .ok [], fun _ => ⟨false, none, none⟩, fun _ => ⟨false, none, none⟩⟩
      ⟨"plainaddress", true, true⟩ = .error "Invalid email format" := rfl

section GeneratePatternsLemmas

open EmailPatternService

/-- Everything the dedup step keeps comes from the input list. -/
theorem dedupByExampleGo_subset :
    ∀ (seen : List String) (l : List EmailPattern) (p : EmailPattern),
      p ∈ dedupByExampleGo seen l → p ∈ l := by
  intro seen l
  induction l generalizing seen with
  | nil => intro p h; simp [dedupByExampleGo] at h
  | cons q rest ih =>
    intro p h
    unfold dedupByExampleGo at h
    split at h
    · exact List.mem_cons_of_mem _ (ih _ _ h)
    · rw [List.mem_cons] at h
      rcases h with rfl | h
      · exact List.mem_cons_self _ _
      · exact List.mem_cons_of_mem _ (ih _ _ h)

/-- The dedup step never keeps a record whose example was already seen. -/
theorem dedupByExampleGo_not_seen :
    ∀ (seen : List String) (l : List EmailPattern) (p : EmailPattern),
      p ∈ dedupByExampleGo seen l → seen.contains p.«example» = false := by
  intro seen l
  induction l generalizing seen with
  | nil => intro p h; simp [dedupByExampleGo] at h
  | cons q rest ih =>
    intro p h
    unfold dedupByExampleGo at h
    split at h
    · exact ih _ _ h
    · next hq =>
      rw [List.mem_cons] at h
      rcases h with rfl | h
      · simpa using hq
      · have h2 := ih _ _ h
        rw [List.contains_cons] at h2
        exact (Bool.or_eq_false_iff.mp h2).2

/-- The dedup step leaves no two records with the same example. -/
theorem dedupByExampleGo_pairwise :
    ∀ (seen : List String) (l : List EmailPattern),
      (dedupByExampleGo seen l).Pairwise fun a b => a.«example» ≠ b.«example» := by
  intro seen l
  induction l generalizing seen with
  | nil => simp [dedupByExampleGo]
  | cons q rest ih =>
    unfold dedupByExampleGo
    split
    · exact ih _
    · refine List.Pairwise.cons ?_ (ih _)
      intro b hb
      have h2 := dedupByExampleGo_not_seen _ _ _ hb
      rw [List.contains_cons] at h2
      have := (Bool.or_eq_false_iff.mp h2).1
      exact fun hqb => by simp [hqb] at this

/-- Descending sortedness of the confidence ordering. -/
theorem sortByConfidenceDesc_sorted (l : List EmailPattern) :
    (sortByConfidenceDesc l).Pairwise fun a b => b.confidence ≤ a.confidence := by
  have h := @List.sorted_insertionSort EmailPattern (fun a b => b.confidence ≤ a.confidence) _
    ⟨fun a b => Nat.le_total b.confidence a.confidence⟩
    ⟨fun a b c hab hbc => Nat.le_trans hbc hab⟩ l
  exact h

/-- Sorting by confidence permutes the list. -/
theorem sortByConfidenceDesc_perm (l : List EmailPattern) :
    (sortByConfidenceDesc l).Perm l :=
  List.perm_insertionSort _ l

/-- Every record returned by `generatePatterns` carries the confidence
computed by `calculateConfidence` from its own pattern and type, except the
company-derived records, which carry it plus 10 and are tagged
domain-specific. -/
theorem mem_generatePatterns_cases (input : EmailPatternInput) (p : EmailPattern)
    (hp : p ∈ generatePatterns input) :
    p.confidence = calculateConfidence p.pattern p.type ∨
    (p.type = .domainSpecific ∧
      p.confidence = calculateConfidence p.pattern .domainSpecific + 10) := by
  simp only [generatePatterns] at hp
  have hp1 := (sortByConfidenceDesc_perm _).mem_iff.mp hp
  have hp2 := dedupByExampleGo_subset _ _ _ hp1
  rcases List.mem_append.mp hp2 with hp3 | hpD
  rotate_left
  · -- company-derived block
    cases hc : input.companyName with
    | none => simp [hc] at hpD
    | some companyName =>
      rw [hc] at hpD
      by_cases he : companyName.data.isEmpty
      · simp [he] at hpD
      · simp only [he, Bool.false_eq_true, if_false, List.mem_map] at hpD
        obtain ⟨t, _, hpt⟩ := hpD
        subst hpt
        exact Or.inr ⟨rfl, rfl⟩
  rcases List.mem_append.mp hp3 with hp4 | hpC
  rotate_left
  · -- custom block
    obtain ⟨t, _, hpt⟩ := List.mem_map.mp hpC
    subst hpt
    exact Or.inl rfl
  rcases List.mem_append.mp hp4 with hpA | hpB
  · -- common block
    obtain ⟨t, _, hpt⟩ := List.mem_map.mp hpA
    subst hpt
    exact Or.inl rfl
  · -- domain-specific block
    obtain ⟨t, _, hpt⟩ := List.mem_map.mp hpB
    subst hpt
    exact Or.inl rfl

/-- `calculateConfidence` is at least 60: base 50 plus the smallest
provenance bonus (custom, +10), and the cap at 100 cannot go below. -/
theorem calculateConfidence_lower (pattern : String) (ptype : PatternType) :
    60 ≤ calculateConfidence pattern ptype := by
  unfold calculateConfidence
  cases ptype <;> split_ifs <;> simp_all

/-- `calculateConfidence` is capped at 100 by the final `Math.min`. -/
theorem calculateConfidence_upper (pattern : String) (ptype : PatternType) :
    calculateConfidence pattern ptype ≤ 100 := by
  unfold calculateConfidence
  exact Nat.min_le_right _ _

end GeneratePatternsLemmas

/-- C6: for every input, the sequence returned by `generatePatterns`
contains no two records with the same materialized example address (the
dedup step keeps the first occurrence, so the first occurrence's
provenance/type wins) and is sorted by non-increasing confidence. -/
theorem generatePatterns_dedup_and_sorted (input : EmailPatternService.EmailPatternInput) :
    ((EmailPatternService.generatePatterns input).Pairwise
      fun a b => a.«example» ≠ b.«example») ∧
    ((EmailPatternService.generatePatterns input).Pairwise
      fun a b => b.confidence ≤ a.confidence) := by
  constructor
  · simp only [EmailPatternService.generatePatterns]
    exact ((sortByConfidenceDesc_perm _).symm.pairwise_iff
      (fun {a b} h => Ne.symm h)).mp (dedupByExampleGo_pairwise _ _)
  · simp only [EmailPatternService.generatePatterns]
    exact sortByConfidenceDesc_sorted _

/-- C10: every record returned by `generatePatterns` has confidence at
least 60 — the generator cannot express anything in the lower 60% of its
nominal 0–100 scale, since the smallest reachable value is the base 50 plus
the custom-provenance bonus of 10. -/
theorem generatePatterns_confidence_min60 (input : EmailPatternService.EmailPatternInput)
    (p : EmailPatternService.EmailPattern)
    (hp : p ∈ EmailPatternService.generatePatterns input) :
    60 ≤ p.confidence := by
  rcases mem_generatePatterns_cases input p hp with h | ⟨_, h⟩
  · rw [h]
    exact calculateConfidence_lower _ _
  · rw [h]
    have := calculateConfidence_lower p.pattern .domainSpecific
    omega

/-- C10 witness: the `firstname.lastname` common pattern for John Doe at
`x.com` is returned with confidence 85 ≥ 60. -/
theorem generatePatterns_confidence_min60_witness :
    (⟨"firstname.lastname", .common, 85, "john.doe@x.com"⟩ :
        EmailPatternService.EmailPattern) ∈
      EmailPatternService.generatePatterns ⟨"x.com", "John", "Doe", none, none⟩ ∧
    60 ≤ (⟨"firstname.lastname", .common, 85, "john.doe@x.com"⟩ :
        EmailPatternService.EmailPattern).confidence :=
  ⟨by decide, generatePatterns_confidence_min60
    ⟨"x.com", "John", "Doe", none, none⟩
    ⟨"firstname.lastname", .common, 85, "john.doe@x.com"⟩ (by decide)⟩

/-- C3 (amended): every record returned by `generatePatterns` carries the
additive confidence capped at 100 by `Math.min` — applied before the
company bonus — plus 10 when the record is company-derived; the value is
therefore bounded by 110, not by 100: company-derived records can exceed
100 (see the counterexample). -/
theorem generatePatterns_confidence_formula (input : EmailPatternService.EmailPatternInput)
    (p : EmailPatternService.EmailPattern)
    (hp : p ∈ EmailPatternService.generatePatterns input) :
    (p.confidence = EmailPatternService.calculateConfidence p.pattern p.type ∨
      p.confidence = EmailPatternService.calculateConfidence p.pattern p.type + 10) ∧
    p.confidence ≤ 110 := by
  rcases mem_generatePatterns_cases input p hp with h | ⟨ht, h⟩
  · refine ⟨Or.inl h, ?_⟩
    rw [h]
    have := calculateConfidence_upper p.pattern p.type
    omega
  · refine ⟨Or.inr (by rw [h, ht]), ?_⟩
    rw [h]
    have := calculateConfidence_upper p.pattern .domainSpecific
    omega

/-- C3 witness: the company-derived record for `mary.jane watson` at
`x.com` carries the capped formula plus the company bonus. -/
theorem generatePatterns_confidence_formula_witness :
    (⟨"mary.janewatson", .domainSpecific, 105, "mary.janewatson@x.com"⟩ :
        EmailPatternService.EmailPattern) ∈
      EmailPatternService.generatePatterns
        ⟨"x.com", "mary.jane", "watson", some "acme", none⟩ ∧
    (((⟨"mary.janewatson", .domainSpecific, 105, "mary.janewatson@x.com"⟩ :
        EmailPatternService.EmailPattern).confidence =
        EmailPatternService.calculateConfidence "mary.janewatson" .domainSpecific ∨
      (⟨"mary.janewatson", .domainSpecific, 105, "mary.janewatson@x.com"⟩ :
        EmailPatternService.EmailPattern).confidence =
        EmailPatternService.calculateConfidence "mary.janewatson" .domainSpecific + 10) ∧
      (⟨"mary.janewatson", .domainSpecific, 105, "mary.janewatson@x.com"⟩ :
        EmailPatternService.EmailPattern).confidence ≤ 110) :=
  ⟨by decide, generatePatterns_confidence_formula
    ⟨"x.com", "mary.jane", "watson", some "acme", none⟩
    ⟨"mary.janewatson", .domainSpecific, 105, "mary.janewatson@x.com"⟩ (by decide)⟩

/-- C3 counterexample: for first name `mary.jane`, last name `watson`,
domain `x.com` and a company name, `generatePatterns` returns the
company-derived record `mary.janewatson` with confidence 105 — outside the
claimed [0, 100] range (the `Math.min` cap is applied before the +10
company bonus). -/
theorem generatePatterns_confidence_over100_counterexample :
    (⟨"mary.janewatson", .domainSpecific, 105, "mary.janewatson@x.com"⟩ :
        EmailPatternService.EmailPattern) ∈
      EmailPatternService.generatePatterns
        ⟨"x.com", "mary.jane", "watson", some "acme", none⟩ ∧
    100 < (⟨"mary.janewatson", .domainSpecific, 105, "mary.janewatson@x.com"⟩ :
        EmailPatternService.EmailPattern).confidence :=
  ⟨by decide, by decide⟩

section BuildEmailLemmas

/-- A list is a prefix of itself followed by anything. -/
theorem isPrefixOf_append_self : ∀ (pat rest : List Char), pat.isPrefixOf (pat ++ rest) = true := by
  intro pat rest
  induction pat with
  | nil => simp [List.isPrefixOf]
  | cons p ps ih => simp [List.isPrefixOf, ih]

/-- A global replace consumes a pattern standing at the head of the
subject. -/
theorem replaceAll_head (p : Char) (ps rep rest : List Char) :
    replaceAll (p :: ps) rep ((p :: ps) ++ rest) = rep ++ replaceAll (p :: ps) rep rest := by
  rw [List.cons_append, replaceAll_match (p :: ps) rep p (ps ++ rest)
    (by rw [← List.cons_append]; exact isPrefixOf_append_self _ _) (by simp)]
  congr 1
  simp [List.drop_left]

/-- Head-mismatch makes the prefix test fail. -/
theorem isPrefixOf_cons_ne (a b : Char) (ps s : List Char) (h : a ≠ b) :
    (a :: ps).isPrefixOf (b :: s) = false := by
  simp [List.isPrefixOf, h]

/-- Characters of a lower-case-letter list are at least `'a'`. -/
theorem goodChars_not_mem_lt (l : List Char)
    (h : ∀ c ∈ l, ('a' ≤ c ∧ c ≤ 'z') ∧ c ≠ 'f' ∧ c ≠ 'l') (c : Char) (hc : c < 'a') :
    c ∉ l :=
  fun hm => absurd (h c hm).1.1 (not_le.mpr hc)

/-- `'f'` does not occur in a good-name list. -/
theorem goodChars_not_mem_f (l : List Char)
    (h : ∀ c ∈ l, ('a' ≤ c ∧ c ≤ 'z') ∧ c ≠ 'f' ∧ c ≠ 'l') : 'f' ∉ l :=
  fun hm => (h 'f' hm).2.1 rfl

/-- `'l'` does not occur in a good-name list. -/
theorem goodChars_not_mem_l (l : List Char)
    (h : ∀ c ∈ l, ('a' ≤ c ∧ c ≤ 'z') ∧ c ≠ 'f' ∧ c ≠ 'l') : 'l' ∉ l :=
  fun hm => (h 'l' hm).2.2 rfl

end BuildEmailLemmas

section BuildEmailTemplateLemmas

/-- Replacing a pattern inside itself yields the replacement. -/
theorem replaceAll_eq_of_self (p : Char) (ps rep : List Char) :
    replaceAll (p :: ps) rep (p :: ps) = rep := by
  have h := replaceAll_head p ps rep []
  simpa [replaceAll_nil] using h

/-- The full six-step replace chain of `buildEmail` on a
`firstname<sep>lastname` template, for separators below `'a'` and names made
of good characters. -/
theorem buildEmail_chain_sep (F L fi li : List Char) (sep : Char) (hsep : sep < 'a')
    (hFgood : ∀ c ∈ F, ('a' ≤ c ∧ c ≤ 'z') ∧ c ≠ 'f' ∧ c ≠ 'l')
    (hLgood : ∀ c ∈ L, ('a' ≤ c ∧ c ≤ 'z') ∧ c ≠ 'f' ∧ c ≠ 'l') :
    replaceAll ['l'] li (replaceAll ['f'] fi (replaceAll ['l', '.'] (li ++ ['.'])
      (replaceAll ['f', '.'] (fi ++ ['.']) (replaceAll "lastname".data L
        (replaceAll "firstname".data F
          (('f' :: "irstname".data) ++ sep :: 'l' :: "astname".data))))))
    = F ++ sep :: L := by
  have hFl : 'l' ∉ F := goodChars_not_mem_l F hFgood
  have hFf : 'f' ∉ F := goodChars_not_mem_f F hFgood
  have hLl : 'l' ∉ L := goodChars_not_mem_l L hLgood
  have hLf : 'f' ∉ L := goodChars_not_mem_f L hLgood
  have hlsep : ('l' : Char) ≠ sep := fun h => absurd (h ▸ hsep) (by decide)
  have hfsep : ('f' : Char) ≠ sep := fun h => absurd (h ▸ hsep) (by decide)
  have h1 : replaceAll "firstname".data F
      (('f' :: "irstname".data) ++ sep :: 'l' :: "astname".data)
      = F ++ sep :: 'l' :: "astname".data := by
    rw [show ("firstname".data) = 'f' :: "irstname".data from rfl]
    rw [replaceAll_head]
    rw [replaceAll_of_not_mem _ _ 'i' (by decide) _ ?_]
    intro hm
    rcases List.mem_cons.mp hm with h | h
    · exact absurd (h ▸ hsep) (by decide)
    · exact absurd h (by decide)
  have h2 : replaceAll "lastname".data L (F ++ sep :: 'l' :: "astname".data)
      = F ++ sep :: L := by
    rw [show ("lastname".data) = 'l' :: "astname".data from rfl]
    rw [replaceAll_append_left 'l' "astname".data L F _ hFl]
    rw [replaceAll_skip _ _ sep _ (isPrefixOf_cons_ne 'l' sep _ _ hlsep)]
    rw [replaceAll_eq_of_self]
  have hfbig : 'f' ∉ F ++ sep :: L := by
    intro hm
    rcases List.mem_append.mp hm with h | h
    · exact hFf h
    · rcases List.mem_cons.mp h with h | h
      · exact hfsep h
      · exact hLf h
  have hlbig : 'l' ∉ F ++ sep :: L := by
    intro hm
    rcases List.mem_append.mp hm with h | h
    · exact hFl h
    · rcases List.mem_cons.mp h with h | h
      · exact hlsep h
      · exact hLl h
  rw [h1, h2]
  rw [replaceAll_of_not_mem ['f', '.'] (fi ++ ['.']) 'f' (by decide) _ hfbig]
  rw [replaceAll_of_not_mem ['l', '.'] (li ++ ['.']) 'l' (by decide) _ hlbig]
  rw [replaceAll_of_not_mem ['f'] fi 'f' (by decide) _ hfbig]
  rw [replaceAll_of_not_mem ['l'] li 'l' (by decide) _ hlbig]


/-- Non-membership in an append. -/
theorem not_mem_append' (a : Char) (l₁ l₂ : List Char) (h1 : a ∉ l₁) (h2 : a ∉ l₂) :
    a ∉ l₁ ++ l₂ :=
  fun hm => (List.mem_append.mp hm).elim (fun h => h1 h) fun h => h2 h

/-- Non-membership in a cons. -/
theorem not_mem_cons' (a b : Char) (l : List Char) (h1 : a ≠ b) (h2 : a ∉ l) :
    a ∉ b :: l :=
  fun hm => (List.mem_cons.mp hm).elim (fun h => h1 h) fun h => h2 h

/-- The `buildEmail` replace chain on the `f.lastname` template. -/
theorem buildEmail_chain_f_dot_last (F L li : List Char) (fh : Char)
    (hfh : ('a' ≤ fh ∧ fh ≤ 'z') ∧ fh ≠ 'f' ∧ fh ≠ 'l')
    (hLgood : ∀ c ∈ L, ('a' ≤ c ∧ c ≤ 'z') ∧ c ≠ 'f' ∧ c ≠ 'l') :
    replaceAll ['l'] li (replaceAll ['f'] [fh] (replaceAll ['l', '.'] (li ++ ['.'])
      (replaceAll ['f', '.'] ([fh] ++ ['.']) (replaceAll "lastname".data L
        (replaceAll "firstname".data F "f.lastname".data)))))
    = fh :: '.' :: L := by
  have hLl : 'l' ∉ L := goodChars_not_mem_l L hLgood
  have hLf : 'f' ∉ L := goodChars_not_mem_f L hLgood
  have h1 : replaceAll "firstname".data F "f.lastname".data = "f.lastname".data :=
    replaceAll_of_not_mem _ _ 'i' (by decide) _ (by decide)
  have h2 : replaceAll "lastname".data L "f.lastname".data = ['f', '.'] ++ L := by
    rw [show ("f.lastname".data) = ['f', '.'] ++ ('l' :: "astname".data) from rfl]
    rw [show ("lastname".data) = 'l' :: "astname".data from rfl]
    rw [replaceAll_append_left 'l' "astname".data L ['f', '.'] _ (by decide)]
    rw [replaceAll_eq_of_self]
  have h3 : replaceAll ['f', '.'] ([fh] ++ ['.']) (['f', '.'] ++ L) =
      (fh :: '.' :: []) ++ L := by
    rw [replaceAll_head 'f' ['.'] ([fh] ++ ['.']) L]
    rw [replaceAll_of_not_mem ['f', '.'] _ 'f' (by decide) _ hLf]
    simp
  have hbig_l : 'l' ∉ (fh :: '.' :: []) ++ L :=
    not_mem_append' _ _ _
      (not_mem_cons' _ _ _ (fun h => hfh.2.2 h.symm)
        (not_mem_cons' _ _ _ (by decide) (by simp))) hLl
  have hbig_f : 'f' ∉ (fh :: '.' :: []) ++ L :=
    not_mem_append' _ _ _
      (not_mem_cons' _ _ _ (fun h => hfh.2.1 h.symm)
        (not_mem_cons' _ _ _ (by decide) (by simp))) hLf
  rw [h1, h2, h3]
  rw [replaceAll_of_not_mem ['l', '.'] (li ++ ['.']) 'l' (by decide) _ hbig_l]
  rw [replaceAll_of_not_mem ['f'] [fh] 'f' (by decide) _ hbig_f]
  rw [replaceAll_of_not_mem ['l'] li 'l' (by decide) _ hbig_l]
  simp

/-- The `buildEmail` replace chain on the `firstname.l` template. -/
theorem buildEmail_chain_first_dot_l (F L fi li : List Char)
    (hFgood : ∀ c ∈ F, ('a' ≤ c ∧ c ≤ 'z') ∧ c ≠ 'f' ∧ c ≠ 'l') :
    replaceAll ['l'] li (replaceAll ['f'] fi (replaceAll ['l', '.'] (li ++ ['.'])
      (replaceAll ['f', '.'] (fi ++ ['.']) (replaceAll "lastname".data L
        (replaceAll "firstname".data F "firstname.l".data)))))
    = F ++ '.' :: li := by
  have hFl : 'l' ∉ F := goodChars_not_mem_l F hFgood
  have hFf : 'f' ∉ F := goodChars_not_mem_f F hFgood
  have h1 : replaceAll "firstname".data F "firstname.l".data = F ++ ['.', 'l'] := by
    rw [show ("firstname".data) = 'f' :: "irstname".data from rfl]
    rw [show ("firstname.l".data) = ('f' :: "irstname".data) ++ ['.', 'l'] from rfl]
    rw [replaceAll_head]
    rw [replaceAll_of_not_mem _ _ 'i' (by decide) _ (by decide)]
  have h2 : replaceAll "lastname".data L (F ++ ['.', 'l']) = F ++ ['.', 'l'] := by
    rw [show ("lastname".data) = 'l' :: "astname".data from rfl]
    rw [replaceAll_append_left 'l' "astname".data L F _ hFl]
    rw [replaceAll_of_not_mem _ _ 'a' (by decide) _ (by decide)]
  have h3 : replaceAll ['f', '.'] (fi ++ ['.']) (F ++ ['.', 'l']) = F ++ ['.', 'l'] :=
    replaceAll_of_not_mem _ _ 'f' (by decide) _
      (not_mem_append' _ _ _ hFf (by decide))
  have h4 : replaceAll ['l', '.'] (li ++ ['.']) (F ++ ['.', 'l']) = F ++ ['.', 'l'] := by
    rw [replaceAll_append_left 'l' ['.'] (li ++ ['.']) F _ hFl]
    rw [show (['.', 'l'] : List Char) = '.' :: ['l'] from rfl]
    rw [replaceAll_skip _ _ '.' ['l'] (by decide)]
    rw [replaceAll_skip _ _ 'l' [] (by decide)]
    rw [replaceAll_nil]
  have h5 : replaceAll ['f'] fi (F ++ ['.', 'l']) = F ++ ['.', 'l'] :=
    replaceAll_of_not_mem _ _ 'f' (by decide) _
      (not_mem_append' _ _ _ hFf (by decide))
  have h6 : replaceAll ['l'] li (F ++ ['.', 'l']) = F ++ '.' :: li := by
    rw [replaceAll_append_left 'l' [] li F _ hFl]
    rw [show (['.', 'l'] : List Char) = '.' :: ['l'] from rfl]
    rw [replaceAll_skip _ _ '.' ['l'] (by decide)]
    rw [replaceAll_eq_of_self]
  rw [h1, h2, h3, h4, h5, h6]

/-- The `buildEmail` replace chain on the `flastname` template. -/
theorem buildEmail_chain_flast (F L li : List Char) (fh lh : Char) (Lt : List Char)
    (hfh : ('a' ≤ fh ∧ fh ≤ 'z') ∧ fh ≠ 'f' ∧ fh ≠ 'l')
    (hLeq : L = lh :: Lt)
    (hLgood : ∀ c ∈ L, ('a' ≤ c ∧ c ≤ 'z') ∧ c ≠ 'f' ∧ c ≠ 'l') :
    replaceAll ['l'] li (replaceAll ['f'] [fh] (replaceAll ['l', '.'] (li ++ ['.'])
      (replaceAll ['f', '.'] ([fh] ++ ['.']) (replaceAll "lastname".data L
        (replaceAll "firstname".data F "flastname".data)))))
    = fh :: L := by
  have hLl : 'l' ∉ L := goodChars_not_mem_l L hLgood
  have hLf : 'f' ∉ L := goodChars_not_mem_f L hLgood
  have hlh : lh ≠ '.' := by
    have := (hLgood lh (by rw [hLeq]; exact List.mem_cons_self _ _)).1.1
    intro h
    rw [h] at this
    exact absurd this (by decide)
  have h1 : replaceAll "firstname".data F "flastname".data = "flastname".data :=
    replaceAll_of_not_mem _ _ 'i' (by decide) _ (by decide)
  have h2 : replaceAll "lastname".data L "flastname".data = 'f' :: L := by
    rw [show ("flastname".data) = ['f'] ++ ('l' :: "astname".data) from rfl]
    rw [show ("lastname".data) = 'l' :: "astname".data from rfl]
    rw [replaceAll_append_left 'l' "astname".data L ['f'] _ (by decide)]
    rw [replaceAll_eq_of_self]
    rfl
  have h3 : replaceAll ['f', '.'] ([fh] ++ ['.']) ('f' :: L) = 'f' :: L := by
    rw [hLeq]
    rw [replaceAll_skip _ _ 'f' (lh :: Lt) ?_]
    · rw [replaceAll_of_not_mem ['f', '.'] _ 'f' (by decide) _ (hLeq ▸ hLf)]
    · simp [List.isPrefixOf]
      intro h
      exact absurd h.symm hlh
  have h4 : replaceAll ['l', '.'] (li ++ ['.']) ('f' :: L) = 'f' :: L :=
    replaceAll_of_not_mem _ _ 'l' (by decide) _
      (not_mem_cons' _ _ _ (by decide) hLl)
  have h5 : replaceAll ['f'] [fh] ('f' :: L) = fh :: L := by
    rw [show ('f' :: L) = ['f'] ++ L from rfl]
    rw [replaceAll_head]
    rw [replaceAll_of_not_mem ['f'] _ 'f' (by decide) _ hLf]
    rfl
  have h6 : replaceAll ['l'] li (fh :: L) = fh :: L :=
    replaceAll_of_not_mem _ _ 'l' (by decide) _
      (not_mem_cons' _ _ _ (fun h => hfh.2.2 h.symm) hLl)
  rw [h1, h2, h3, h4, h5, h6]

/-- The `buildEmail` replace chain on the bare `firstname` template. -/
theorem buildEmail_chain_first (F L fi li : List Char)
    (hFgood : ∀ c ∈ F, ('a' ≤ c ∧ c ≤ 'z') ∧ c ≠ 'f' ∧ c ≠ 'l') :
    replaceAll ['l'] li (replaceAll ['f'] fi (replaceAll ['l', '.'] (li ++ ['.'])
      (replaceAll ['f', '.'] (fi ++ ['.']) (replaceAll "lastname".data L
        (replaceAll "firstname".data F "firstname".data)))))
    = F := by
  have hFl : 'l' ∉ F := goodChars_not_mem_l F hFgood
  have hFf : 'f' ∉ F := goodChars_not_mem_f F hFgood
  have h1 : replaceAll "firstname".data F "firstname".data = F := by
    rw [show ("firstname".data) = 'f' :: "irstname".data from rfl]
    rw [replaceAll_eq_of_self]
  rw [h1]
  rw [replaceAll_of_not_mem "lastname".data L 'l' (by decide) _ hFl]
  rw [replaceAll_of_not_mem ['f', '.'] (fi ++ ['.']) 'f' (by decide) _ hFf]
  rw [replaceAll_of_not_mem ['l', '.'] (li ++ ['.']) 'l' (by decide) _ hFl]
  rw [replaceAll_of_not_mem ['f'] fi 'f' (by decide) _ hFf]
  rw [replaceAll_of_not_mem ['l'] li 'l' (by decide) _ hFl]

/-- The `buildEmail` replace chain on the bare `lastname` template. -/
theorem buildEmail_chain_last (F L fi li : List Char)
    (hLgood : ∀ c ∈ L, ('a' ≤ c ∧ c ≤ 'z') ∧ c ≠ 'f' ∧ c ≠ 'l') :
    replaceAll ['l'] li (replaceAll ['f'] fi (replaceAll ['l', '.'] (li ++ ['.'])
      (replaceAll ['f', '.'] (fi ++ ['.']) (replaceAll "lastname".data L
        (replaceAll "firstname".data F "lastname".data)))))
    = L := by
  have hLl : 'l' ∉ L := goodChars_not_mem_l L hLgood
  have hLf : 'f' ∉ L := goodChars_not_mem_f L hLgood
  have h1 : replaceAll "firstname".data F "lastname".data = "lastname".data :=
    replaceAll_of_not_mem _ _ 'i' (by decide) _ (by decide)
  have h2 : replaceAll "lastname".data L "lastname".data = L := by
    rw [show ("lastname".data) = 'l' :: "astname".data from rfl]
    rw [replaceAll_eq_of_self]
  rw [h1, h2]
  rw [replaceAll_of_not_mem ['f', '.'] (fi ++ ['.']) 'f' (by decide) _ hLf]
  rw [replaceAll_of_not_mem ['l', '.'] (li ++ ['.']) 'l' (by decide) _ hLl]
  rw [replaceAll_of_not_mem ['f'] fi 'f' (by decide) _ hLf]
  rw [replaceAll_of_not_mem ['l'] li 'l' (by decide) _ hLl]


open EmailPatternService in
/-- C2 (amended): on the generator's template vocabulary and for names made
of lower-case letters other than `f`/`l`, `buildEmail` substitutes
`firstname`/`lastname` with the full names and `f`/`l` with the initials and
appends `@domain`. -/
theorem buildEmail_fixed_templates (first last domain : String)
    (hF : GoodName first) (hL : GoodName last) :
    (buildEmail "firstname.lastname" ⟨first, last, charAt0 first, charAt0 last⟩ domain =
      first ++ "." ++ last ++ "@" ++ domain) ∧
    (buildEmail "firstname_lastname" ⟨first, last, charAt0 first, charAt0 last⟩ domain =
      first ++ "_" ++ last ++ "@" ++ domain) ∧
    (buildEmail "firstname-lastname" ⟨first, last, charAt0 first, charAt0 last⟩ domain =
      first ++ "-" ++ last ++ "@" ++ domain) ∧
    (buildEmail "f.lastname" ⟨first, last, charAt0 first, charAt0 last⟩ domain =
      charAt0 first ++ "." ++ last ++ "@" ++ domain) ∧
    (buildEmail "firstname.l" ⟨first, last, charAt0 first, charAt0 last⟩ domain =
      first ++ "." ++ charAt0 last ++ "@" ++ domain) ∧
    (buildEmail "flastname" ⟨first, last, charAt0 first, charAt0 last⟩ domain =
      charAt0 first ++ last ++ "@" ++ domain) ∧
    (buildEmail "firstname" ⟨first, last, charAt0 first, charAt0 last⟩ domain =
      first ++ "@" ++ domain) ∧
    (buildEmail "lastname" ⟨first, last, charAt0 first, charAt0 last⟩ domain =
      last ++ "@" ++ domain) := by
  obtain ⟨F⟩ := first
  obtain ⟨L⟩ := last
  obtain ⟨D⟩ := domain
  have hFgood : ∀ c ∈ F, ('a' ≤ c ∧ c ≤ 'z') ∧ c ≠ 'f' ∧ c ≠ 'l' := hF.2
  have hLgood : ∀ c ∈ L, ('a' ≤ c ∧ c ≤ 'z') ∧ c ≠ 'f' ∧ c ≠ 'l' := hL.2
  cases F with
  | nil => exact absurd rfl hF.1
  | cons fh Ft =>
  cases L with
  | nil => exact absurd rfl hL.1
  | cons lh Lt =>
  have hfh := hFgood fh (List.mem_cons_self _ _)
  have hlh := hLgood lh (List.mem_cons_self _ _)
  refine ⟨?_, ?_, ?_, ?_, ?_, ?_, ?_, ?_⟩
  · refine String.ext ?_
    show replaceAll ['l'] [lh] (replaceAll ['f'] [fh] (replaceAll ['l', '.'] ([lh] ++ ['.'])
        (replaceAll ['f', '.'] ([fh] ++ ['.']) (replaceAll "lastname".data (lh :: Lt)
          (replaceAll "firstname".data (fh :: Ft)
            (('f' :: "irstname".data) ++ '.' :: 'l' :: "astname".data))))))
        ++ "@".data ++ D
      = (((fh :: Ft) ++ ".".data) ++ (lh :: Lt)) ++ "@".data ++ D
    rw [buildEmail_chain_sep (fh :: Ft) (lh :: Lt) [fh] [lh] '.' (by decide) hFgood hLgood]
    simp
  · refine String.ext ?_
    show replaceAll ['l'] [lh] (replaceAll ['f'] [fh] (replaceAll ['l', '.'] ([lh] ++ ['.'])
        (replaceAll ['f', '.'] ([fh] ++ ['.']) (replaceAll "lastname".data (lh :: Lt)
          (replaceAll "firstname".data (fh :: Ft)
            (('f' :: "irstname".data) ++ '_' :: 'l' :: "astname".data))))))
        ++ "@".data ++ D
      = (((fh :: Ft) ++ "_".data) ++ (lh :: Lt)) ++ "@".data ++ D
    rw [buildEmail_chain_sep (fh :: Ft) (lh :: Lt) [fh] [lh] '_' (by decide) hFgood hLgood]
    simp
  · refine String.ext ?_
    show replaceAll ['l'] [lh] (replaceAll ['f'] [fh] (replaceAll ['l', '.'] ([lh] ++ ['.'])
        (replaceAll ['f', '.'] ([fh] ++ ['.']) (replaceAll "lastname".data (lh :: Lt)
          (replaceAll "firstname".data (fh :: Ft)
            (('f' :: "irstname".data) ++ '-' :: 'l' :: "astname".data))))))
        ++ "@".data ++ D
      = (((fh :: Ft) ++ "-".data) ++ (lh :: Lt)) ++ "@".data ++ D
    rw [buildEmail_chain_sep (fh :: Ft) (lh :: Lt) [fh] [lh] '-' (by decide) hFgood hLgood]
    simp
  · refine String.ext ?_
    show replaceAll ['l'] [lh] (replaceAll ['f'] [fh] (replaceAll ['l', '.'] ([lh] ++ ['.'])
        (replaceAll ['f', '.'] ([fh] ++ ['.']) (replaceAll "lastname".data (lh :: Lt)
          (replaceAll "firstname".data (fh :: Ft) "f.lastname".data)))))
        ++ "@".data ++ D
      = ((([fh] ++ ".".data) ++ (lh :: Lt)) ++ "@".data) ++ D
    rw [buildEmail_chain_f_dot_last (fh :: Ft) (lh :: Lt) [lh] fh hfh hLgood]
    simp
  · refine String.ext ?_
    show replaceAll ['l'] [lh] (replaceAll ['f'] [fh] (replaceAll ['l', '.'] ([lh] ++ ['.'])
        (replaceAll ['f', '.'] ([fh] ++ ['.']) (replaceAll "lastname".data (lh :: Lt)
          (replaceAll "firstname".data (fh :: Ft) "firstname.l".data)))))
        ++ "@".data ++ D
      = ((((fh :: Ft) ++ ".".data) ++ [lh]) ++ "@".data) ++ D
    rw [buildEmail_chain_first_dot_l (fh :: Ft) (lh :: Lt) [fh] [lh] hFgood]
    simp
  · refine String.ext ?_
    show replaceAll ['l'] [lh] (replaceAll ['f'] [fh] (replaceAll ['l', '.'] ([lh] ++ ['.'])
        (replaceAll ['f', '.'] ([fh] ++ ['.']) (replaceAll "lastname".data (lh :: Lt)
          (replaceAll "firstname".data (fh :: Ft) "flastname".data)))))
        ++ "@".data ++ D
      = (([fh] ++ (lh :: Lt)) ++ "@".data) ++ D
    rw [buildEmail_chain_flast (fh :: Ft) (lh :: Lt) [lh] fh lh Lt hfh rfl hLgood]
    simp
  · refine String.ext ?_
    show replaceAll ['l'] [lh] (replaceAll ['f'] [fh] (replaceAll ['l', '.'] ([lh] ++ ['.'])
        (replaceAll ['f', '.'] ([fh] ++ ['.']) (replaceAll "lastname".data (lh :: Lt)
          (replaceAll "firstname".data (fh :: Ft) "firstname".data)))))
        ++ "@".data ++ D
      = ((fh :: Ft) ++ "@".data) ++ D
    rw [buildEmail_chain_first (fh :: Ft) (lh :: Lt) [fh] [lh] hFgood]
  · refine String.ext ?_
    show replaceAll ['l'] [lh] (replaceAll ['f'] [fh] (replaceAll ['l', '.'] ([lh] ++ ['.'])
        (replaceAll ['f', '.'] ([fh] ++ ['.']) (replaceAll "lastname".data (lh :: Lt)
          (replaceAll "firstname".data (fh :: Ft) "lastname".data)))))
        ++ "@".data ++ D
      = ((lh :: Lt) ++ "@".data) ++ D
    rw [buildEmail_chain_last (fh :: Ft) (lh :: Lt) [fh] [lh] hLgood]

end BuildEmailTemplateLemmas

/-- C2 counterexample: with first name `alf` (which contains the letters
`f` and `l`) and last name `smith`, materializing the template `firstname`
yields `asa@x.com` instead of `alf@x.com`: the later global `f`/`l`
replaces rewrite the letters inside the substituted first name (`f` to the
first initial `a`, then `l` to the last initial `s`), so the claimed
non-interference of the single-letter substitutions with the name
substitutions is false. -/
theorem buildEmail_mangles_names_counterexample :
    EmailPatternService.buildEmail "firstname"
      ⟨"alf", "smith", charAt0 "alf", charAt0 "smith"⟩ "x.com" = "asa@x.com" ∧
    ("asa@x.com" : String) ≠ "alf@x.com" :=
  ⟨by decide, by decide⟩

/-- C2 witness: the amended theorem applied to john/doe at x.com. -/
theorem buildEmail_fixed_templates_witness :
    GoodName "john" ∧ GoodName "doe" ∧
    EmailPatternService.buildEmail "firstname.lastname"
      ⟨"john", "doe", charAt0 "john", charAt0 "doe"⟩ "x.com" =
      "john" ++ "." ++ "doe" ++ "@" ++ "x.com" :=
  ⟨by decide, by decide,
   (buildEmail_fixed_templates "john" "doe" "x.com" (by decide) (by decide)).1⟩
